import Mathlib

/-!
Shallow embedding of the Arbitrage-x real-time pipeline
(`src/triangular_arbitrage/`): the circuit breaker, the rate limiter,
the websocket bounded buffer, the price cache with its stream-message
writers, the triangular-opportunity detector and the trade executor.
Each definition is translated from the named Python source function;
times and prices are modelled as rationals, machine floats as exact
rational arithmetic.
-/

namespace ArbitrageX

/-! ## Circuit breaker (`utils/circuit_breaker.py`) -/

/-- States of `CircuitState` in `utils/circuit_breaker.py`. -/
inductive CircuitState where
  | closed
  | opened
  | halfOpen
  deriving DecidableEq, Repr

/-- Configuration of a `CircuitBreaker` instance
(`failure_threshold`, `recovery_timeout`, `half_open_timeout`). -/
structure BreakerConfig where
  failureThreshold : ℕ
  recoveryTimeout : ℚ
  halfOpenTimeout : ℚ
  deriving DecidableEq, Repr

/-- Mutable fields of `CircuitBreaker` that govern its behaviour
(`state`, `failure_count`, `last_failure_time`); logging and the
metrics dictionary are omitted as they never feed back into control flow. -/
structure Breaker where
  state : CircuitState
  failureCount : ℕ
  lastFailureTime : ℚ
  deriving DecidableEq, Repr

/-- Initial breaker: `failure_count = 0`, `last_failure_time = 0`,
`state = CLOSED` (constructor of `CircuitBreaker`). -/
def Breaker.init : Breaker := ⟨CircuitState.closed, 0, 0⟩

/-- `CircuitBreaker._should_allow_request`: returns whether the request is
allowed and the breaker after the method's own state mutation
(an `OPEN` breaker whose recovery timeout has elapsed moves to `HALF_OPEN`). -/
def shouldAllowRequest (cfg : BreakerConfig) (b : Breaker) (now : ℚ) :
    Bool × Breaker :=
  match b.state with
  | CircuitState.closed => (true, b)
  | CircuitState.opened =>
      if now - b.lastFailureTime ≥ cfg.recoveryTimeout then
        (true, { b with state := CircuitState.halfOpen })
      else
        (false, b)
  | CircuitState.halfOpen =>
      if now - b.lastFailureTime ≥ cfg.halfOpenTimeout then (true, b)
      else (false, b)

/-- `CircuitBreaker._handle_success`: a success in `HALF_OPEN` closes the
breaker and clears the failure count; otherwise the control state is
untouched. -/
def handleSuccess (b : Breaker) : Breaker :=
  if b.state = CircuitState.halfOpen then
    { b with state := CircuitState.closed, failureCount := 0 }
  else b

/-- `CircuitBreaker._handle_failure`: increments the failure count, stamps
the failure time, and opens the breaker when the count reaches the
threshold. -/
def handleFailure (cfg : BreakerConfig) (b : Breaker) (now : ℚ) : Breaker :=
  let fc := b.failureCount + 1
  { state := if cfg.failureThreshold ≤ fc then CircuitState.opened else b.state
    failureCount := fc
    lastFailureTime := now }

/-- One wrapped call through the `circuit_breaker` decorator: when
`_should_allow_request` denies, the call raises without attempting the
wrapped operation (`attempted = false`); otherwise the operation runs and
its outcome (`true` = success) is fed to `_handle_success`/`_handle_failure`. -/
def breakerCall (cfg : BreakerConfig) (b : Breaker) (now : ℚ)
    (outcome : Bool) : Bool × Breaker :=
  let (allow, b1) := shouldAllowRequest cfg b now
  if allow then
    (true, if outcome then handleSuccess b1 else handleFailure cfg b1 now)
  else
    (false, b1)

/-- Folding a sequence of wrapped-call events `(time, outcome)` through the
breaker. -/
def breakerRun (cfg : BreakerConfig) (b : Breaker)
    (events : List (ℚ × Bool)) : Breaker :=
  events.foldl (fun st e => (breakerCall cfg st e.1 e.2).2) b

lemma breakerRun_cons (cfg : BreakerConfig) (b : Breaker) (t : ℚ) (o : Bool)
    (es : List (ℚ × Bool)) :
    breakerRun cfg b ((t, o) :: es) =
      breakerRun cfg (breakerCall cfg b t o).2 es := rfl

lemma breakerCall_closed_fail (cfg : BreakerConfig) (fc : ℕ) (lf t : ℚ) :
    breakerCall cfg ⟨CircuitState.closed, fc, lf⟩ t false =
      (true, ⟨if cfg.failureThreshold ≤ fc + 1 then CircuitState.opened
              else CircuitState.closed, fc + 1, t⟩) := by
  simp [breakerCall, shouldAllowRequest, handleFailure]

lemma breakerCall_closed_succ (cfg : BreakerConfig) (fc : ℕ) (lf t : ℚ) :
    breakerCall cfg ⟨CircuitState.closed, fc, lf⟩ t true =
      (true, ⟨CircuitState.closed, fc, lf⟩) := by
  simp [breakerCall, shouldAllowRequest, handleSuccess]

lemma breakerCall_open_early (cfg : BreakerConfig) (fc : ℕ) (lf t : ℚ)
    (o : Bool) (h : t - lf < cfg.recoveryTimeout) :
    breakerCall cfg ⟨CircuitState.opened, fc, lf⟩ t o =
      (false, ⟨CircuitState.opened, fc, lf⟩) := by
  simp [breakerCall, shouldAllowRequest, not_le.mpr h]

lemma breakerCall_open_elapsed_succ (cfg : BreakerConfig) (fc : ℕ)
    (lf t : ℚ) (h : cfg.recoveryTimeout ≤ t - lf) :
    breakerCall cfg ⟨CircuitState.opened, fc, lf⟩ t true =
      (true, ⟨CircuitState.closed, 0, lf⟩) := by
  simp [breakerCall, shouldAllowRequest, handleSuccess, h]

lemma breakerCall_open_elapsed_fail (cfg : BreakerConfig) (fc : ℕ)
    (lf t : ℚ) (h : cfg.recoveryTimeout ≤ t - lf) :
    breakerCall cfg ⟨CircuitState.opened, fc, lf⟩ t false =
      (true, ⟨if cfg.failureThreshold ≤ fc + 1 then CircuitState.opened
              else CircuitState.halfOpen, fc + 1, t⟩) := by
  simp [breakerCall, shouldAllowRequest, handleFailure, h]

lemma breakerCall_half_early (cfg : BreakerConfig) (fc : ℕ) (lf t : ℚ)
    (o : Bool) (h : t - lf < cfg.halfOpenTimeout) :
    breakerCall cfg ⟨CircuitState.halfOpen, fc, lf⟩ t o =
      (false, ⟨CircuitState.halfOpen, fc, lf⟩) := by
  simp [breakerCall, shouldAllowRequest, not_le.mpr h]

lemma breakerCall_half_succ (cfg : BreakerConfig) (fc : ℕ) (lf t : ℚ)
    (h : cfg.halfOpenTimeout ≤ t - lf) :
    breakerCall cfg ⟨CircuitState.halfOpen, fc, lf⟩ t true =
      (true, ⟨CircuitState.closed, 0, lf⟩) := by
  simp [breakerCall, shouldAllowRequest, handleSuccess, h]

lemma breakerCall_half_fail (cfg : BreakerConfig) (fc : ℕ) (lf t : ℚ)
    (h : cfg.halfOpenTimeout ≤ t - lf) :
    breakerCall cfg ⟨CircuitState.halfOpen, fc, lf⟩ t false =
      (true, ⟨if cfg.failureThreshold ≤ fc + 1 then CircuitState.opened
              else CircuitState.halfOpen, fc + 1, t⟩) := by
  simp [breakerCall, shouldAllowRequest, handleFailure, h]

lemma breakerRun_closed_fails_lt (cfg : BreakerConfig) :
    ∀ (ts : List ℚ) (b : Breaker), b.state = CircuitState.closed →
      b.failureCount + ts.length < cfg.failureThreshold →
      (breakerRun cfg b (ts.map fun t => (t, false))).state =
          CircuitState.closed ∧
        (breakerRun cfg b (ts.map fun t => (t, false))).failureCount =
          b.failureCount + ts.length := by
  intro ts
  induction ts with
  | nil => intro b hb _; simpa [breakerRun] using hb
  | cons t ts ih =>
      intro b hb hlt
      obtain ⟨st, fc, lf⟩ := b
      simp only [Breaker.state] at hb
      subst hb
      simp only [Breaker.failureCount, List.length_cons] at hlt
      have hnot : ¬ cfg.failureThreshold ≤ fc + 1 := by omega
      have hlt2 : (Breaker.mk CircuitState.closed (fc + 1) t).failureCount +
          ts.length < cfg.failureThreshold := by
        simp only [Breaker.failureCount]; omega
      have hres := ih ⟨CircuitState.closed, fc + 1, t⟩ rfl hlt2
      rw [List.map_cons, breakerRun_cons, breakerCall_closed_fail]
      simp only [hnot, if_false]
      refine ⟨hres.1, ?_⟩
      rw [hres.2]
      simp only [Breaker.failureCount, List.length_cons]
      omega

lemma breakerRun_closed_fails_eq (cfg : BreakerConfig) :
    ∀ (ts : List ℚ) (b : Breaker), b.state = CircuitState.closed →
      b.failureCount + ts.length = cfg.failureThreshold → 1 ≤ ts.length →
      (breakerRun cfg b (ts.map fun t => (t, false))).state =
        CircuitState.opened := by
  intro ts
  induction ts with
  | nil => intro b _ _ h; simp at h
  | cons t ts ih =>
      intro b hb heq _
      obtain ⟨st, fc, lf⟩ := b
      simp only [Breaker.state] at hb
      subst hb
      simp only [Breaker.failureCount, List.length_cons] at heq
      cases ts with
      | nil =>
          simp only [List.length_nil] at heq
          have hth : cfg.failureThreshold ≤ fc + 1 := by omega
          simp [breakerRun_cons, breakerCall_closed_fail, hth, breakerRun,
            Breaker.state]
      | cons t2 ts2 =>
          simp only [List.length_cons] at heq
          have hnot : ¬ cfg.failureThreshold ≤ fc + 1 := by omega
          have := ih ⟨CircuitState.closed, fc + 1, t⟩ rfl
            (by simp only [Breaker.failureCount, List.length_cons]; omega)
            (by simp)
          simpa [List.map_cons, breakerRun_cons, breakerCall_closed_fail,
            hnot] using this

/-- A breaker that left `CLOSED` carries at least `failure_threshold`
accumulated failures: `_handle_success` resets the count only when it also
returns to `CLOSED`, so the count never drops while the breaker is
`OPEN`/`HALF_OPEN`. -/
def BreakerInv (cfg : BreakerConfig) (b : Breaker) : Prop :=
  b.state ≠ CircuitState.closed → cfg.failureThreshold ≤ b.failureCount

lemma breakerCall_inv (cfg : BreakerConfig) (b : Breaker) (now : ℚ)
    (o : Bool) (h : BreakerInv cfg b) :
    BreakerInv cfg (breakerCall cfg b now o).2 := by
  obtain ⟨st, fc, lf⟩ := b
  simp only [BreakerInv, Breaker.state, Breaker.failureCount, ne_eq] at h
  cases st with
  | closed =>
      cases o with
      | false =>
          rw [breakerCall_closed_fail]
          intro hne
          by_cases hth : cfg.failureThreshold ≤ fc + 1

          · simpa using hth
          · simp [hth] at hne
      | true =>
          rw [breakerCall_closed_succ]
          intro hne
          simp at hne
  | opened =>
      have hfc : cfg.failureThreshold ≤ fc := h (by simp)
      by_cases ht : cfg.recoveryTimeout ≤ now - lf
      · cases o with
        | false =>
            rw [breakerCall_open_elapsed_fail cfg fc lf now ht]
            intro _
            simp only [Breaker.failureCount]
            omega
        | true =>
            rw [breakerCall_open_elapsed_succ cfg fc lf now ht]
            intro hne
            simp at hne
      · rw [breakerCall_open_early cfg fc lf now o (not_le.mp ht)]
        intro _
        simpa using hfc
  | halfOpen =>
      have hfc : cfg.failureThreshold ≤ fc := h (by simp)
      by_cases ht : cfg.halfOpenTimeout ≤ now - lf
      · cases o with
        | false =>
            rw [breakerCall_half_fail cfg fc lf now ht]
            intro _
            simp only [Breaker.failureCount]
            omega
        | true =>
            rw [breakerCall_half_succ cfg fc lf now ht]
            intro hne
            simp at hne
      · rw [breakerCall_half_early cfg fc lf now o (not_le.mp ht)]
        intro _
        simpa using hfc

lemma breakerRun_inv (cfg : BreakerConfig) :
    ∀ (events : List (ℚ × Bool)) (b : Breaker), BreakerInv cfg b →
      BreakerInv cfg (breakerRun cfg b events) := by
  intro events
  induction events with
  | nil => intro b h; simpa [breakerRun] using h
  | cons e es ih =>
      intro b h
      exact ih _ (breakerCall_inv cfg b e.1 e.2 h)

/-! ## Rate limiter (`utils/rate_limiter.py`) -/

/-- The `RateLimit` dataclass: `requests` per `window` seconds. -/
structure RateLimit where
  requests : ℕ
  window : ℚ
  deriving DecidableEq, Repr

/-- The `RateLimitInfo` dataclass: current usage of one `(scope, key)`
window. -/
structure RateLimitInfo where
  requests : ℕ
  windowStart : ℚ
  lastReset : ℚ
  deriving DecidableEq, Repr

/-- `RateLimiter._should_reset`: the window expired when
`now - window_start >= limit.window`. -/
def shouldReset (limit : RateLimit) (info : RateLimitInfo) (now : ℚ) : Bool :=
  now - info.windowStart ≥ limit.window

/-- Core of `RateLimiter.check_rate_limit` once the limit has been looked
up: lazily reset the window if expired, reject (HTTP 429, state not
written back) when `requests + cost > limit.requests`, otherwise add the
cost and persist.  Returns `(allowed, new state)`. -/
def checkStep (limit : RateLimit) (info : RateLimitInfo) (now : ℚ)
    (cost : ℕ) : Bool × RateLimitInfo :=
  let info1 := if shouldReset limit info now then
      RateLimitInfo.mk 0 now now
    else info
  if limit.requests < info1.requests + cost then
    (false, info)
  else
    (true, { info1 with requests := info1.requests + cost, lastReset := now })

/-- `RateLimiter.check_rate_limit` with the `self.limits[category][scope]`
lookup made explicit: a category/scope absent from the configured table
raises `KeyError`, which the generic `except` swallows, returning `True`
with no usage counter touched (the state table is read only after the
lookup succeeds).  `limits` is the configured table, `st` the in-memory
per-`(scope, key)` usage state. -/
def checkRateLimit (limits : String → String → Option RateLimit)
    (st : String → String → RateLimitInfo)
    (category scope key : String) (now : ℚ) (cost : ℕ) :
    Bool × (String → String → RateLimitInfo) :=
  match limits category scope with
  | none => (true, st)
  | some limit =>
      let (ok, info) := checkStep limit (st scope key) now cost
      if ok then
        (ok, fun sc k => if sc = scope ∧ k = key then info else st sc k)
      else
        (ok, st)

/-- Folding cost-1 checks at the given times through one window's state,
recording each check's verdict. -/
def limiterRun (limit : RateLimit) (info : RateLimitInfo) :
    List ℚ → List Bool × RateLimitInfo
  | [] => ([], info)
  | t :: ts =>
      let (ok, info1) := checkStep limit info t 1
      let (oks, info2) := limiterRun limit info1 ts
      (ok :: oks, info2)

lemma limiterRun_all_accept (limit : RateLimit) :
    ∀ (ts : List ℚ) (k : ℕ) (t0 lr : ℚ),
      k + ts.length ≤ limit.requests →
      (∀ t ∈ ts, t - t0 < limit.window) →
      (limiterRun limit ⟨k, t0, lr⟩ ts).1 = ts.map (fun _ => true) ∧
        (limiterRun limit ⟨k, t0, lr⟩ ts).2.requests = k + ts.length ∧
        (limiterRun limit ⟨k, t0, lr⟩ ts).2.windowStart = t0 := by
  intro ts
  induction ts with
  | nil => intro k t0 lr _ _; simp [limiterRun]
  | cons t ts ih =>
      intro k t0 lr hle hin
      have hres : ¬ shouldReset limit ⟨k, t0, lr⟩ t := by
        simp only [shouldReset, decide_eq_true_eq, not_le]
        exact hin t (List.mem_cons_self t ts)
      have hcap : ¬ limit.requests < k + 1 := by
        simp only [List.length_cons] at hle; omega
      have hstep : checkStep limit ⟨k, t0, lr⟩ t 1 =
          (true, ⟨k + 1, t0, t⟩) := by
        simp [checkStep, hres, hcap]
      have htail := ih (k + 1) t0 t
        (by simp only [List.length_cons] at hle; omega)
        (fun u hu => hin u (List.mem_cons_of_mem t hu))
      refine ⟨?_, ?_, ?_⟩
      · simp only [limiterRun, hstep, List.map_cons]
        simp [htail.1]
      · simp only [limiterRun, hstep, List.length_cons]
        simp [htail.2.1]
        omega
      · simp only [limiterRun, hstep]
        simp [htail.2.2]

lemma checkStep_reject (limit : RateLimit) (info : RateLimitInfo) (t : ℚ)
    (c : ℕ) (hres : ¬ shouldReset limit info t)
    (hover : limit.requests < info.requests + c) :
    checkStep limit info t c = (false, info) := by
  simp [checkStep, hres, hover]

lemma checkStep_fresh (limit : RateLimit) (info : RateLimitInfo) (t : ℚ)
    (hres : shouldReset limit info t) (hpos : 1 ≤ limit.requests) :
    checkStep limit info t 1 = (true, ⟨1, t, t⟩) := by
  have : ¬ limit.requests < 0 + 1 := by omega
  simp [checkStep, hres, this]

end ArbitrageX

/-- C2: starting from a `CLOSED` breaker, `failure_threshold` consecutive
failures open it; while `OPEN` and before `recovery_timeout` has elapsed
since the last failure, a call is rejected without the wrapped operation
being attempted and the breaker is unchanged; once `recovery_timeout` has
elapsed the next call is attempted with the breaker in `HALF_OPEN`; an
attempted success in `HALF_OPEN` closes the breaker; and for every
reachable breaker, an attempted failure in `HALF_OPEN` re-opens it. -/
theorem ArbitrageX.circuit_breaker_lifecycle (cfg : ArbitrageX.BreakerConfig)
    (hth : 1 ≤ cfg.failureThreshold) :
    (∀ ts : List ℚ, ts.length = cfg.failureThreshold →
        (ArbitrageX.breakerRun cfg ArbitrageX.Breaker.init
            (ts.map fun t => (t, false))).state =
          ArbitrageX.CircuitState.opened)
    ∧ (∀ (b : ArbitrageX.Breaker) (now : ℚ) (o : Bool),
        b.state = ArbitrageX.CircuitState.opened →
        now - b.lastFailureTime < cfg.recoveryTimeout →
        ArbitrageX.breakerCall cfg b now o = (false, b))
    ∧ (∀ (b : ArbitrageX.Breaker) (now : ℚ),
        b.state = ArbitrageX.CircuitState.opened →
        cfg.recoveryTimeout ≤ now - b.lastFailureTime →
        (∀ o, (ArbitrageX.breakerCall cfg b now o).1 = true) ∧
        (ArbitrageX.shouldAllowRequest cfg b now).2.state =
          ArbitrageX.CircuitState.halfOpen ∧
        (ArbitrageX.breakerCall cfg b now true).2.state =
          ArbitrageX.CircuitState.closed)
    ∧ (∀ (b : ArbitrageX.Breaker) (now : ℚ),
        b.state = ArbitrageX.CircuitState.halfOpen →
        (ArbitrageX.breakerCall cfg b now true).1 = true →
        (ArbitrageX.breakerCall cfg b now true).2.state =
          ArbitrageX.CircuitState.closed)
    ∧ (∀ (events : List (ℚ × Bool)) (now : ℚ),
        (ArbitrageX.breakerRun cfg ArbitrageX.Breaker.init events).state =
          ArbitrageX.CircuitState.halfOpen →
        (ArbitrageX.breakerCall cfg
            (ArbitrageX.breakerRun cfg ArbitrageX.Breaker.init events) now
            false).1 = true →
        (ArbitrageX.breakerCall cfg
            (ArbitrageX.breakerRun cfg ArbitrageX.Breaker.init events) now
            false).2.state = ArbitrageX.CircuitState.opened) := by
  open ArbitrageX in
  refine ⟨?_, ?_, ?_, ?_, ?_⟩
  · intro ts hts
    exact breakerRun_closed_fails_eq cfg ts Breaker.init rfl
      (by simp [Breaker.init, hts]) (hts ▸ hth)
  · intro b now o hst hlt
    obtain ⟨st, fc, lf⟩ := b
    simp only [Breaker.state] at hst
    subst hst
    exact breakerCall_open_early cfg fc lf now o
      (by simpa [Breaker.lastFailureTime] using hlt)
  · intro b now hst hge
    obtain ⟨st, fc, lf⟩ := b
    simp only [Breaker.state] at hst
    subst hst
    simp only [Breaker.lastFailureTime] at hge
    refine ⟨?_, ?_, ?_⟩
    · intro o
      cases o
      · rw [breakerCall_open_elapsed_fail cfg fc lf now hge]
      · rw [breakerCall_open_elapsed_succ cfg fc lf now hge]
    · simp [shouldAllowRequest, hge]
    · rw [breakerCall_open_elapsed_succ cfg fc lf now hge]
  · intro b now hst hatt
    obtain ⟨st, fc, lf⟩ := b
    simp only [Breaker.state] at hst
    subst hst
    by_cases ht : cfg.halfOpenTimeout ≤ now - lf
    · rw [breakerCall_half_succ cfg fc lf now ht]
    · rw [breakerCall_half_early cfg fc lf now true (not_le.mp ht)] at hatt
      simp at hatt
  · intro events now hst hatt
    have hinv := breakerRun_inv cfg events Breaker.init
      (fun hne => absurd rfl hne)
    set b := breakerRun cfg Breaker.init events with hb
    obtain ⟨st, fc, lf⟩ := b
    simp only [Breaker.state] at hst
    subst hst
    have hfc : cfg.failureThreshold ≤ fc := hinv (by simp)
    by_cases ht : cfg.halfOpenTimeout ≤ now - lf
    · rw [breakerCall_half_fail cfg fc lf now ht]
      have : cfg.failureThreshold ≤ fc + 1 := Nat.le_succ_of_le hfc
      simp [this]
    · rw [breakerCall_half_early cfg fc lf now false (not_le.mp ht)] at hatt
      simp at hatt

/-- Witness for C2: with the default configuration (threshold 5,
recovery 60 s, half-open 30 s), five consecutive failures starting from a
fresh breaker leave it `OPEN`. -/
theorem ArbitrageX.circuit_breaker_lifecycle_witness :
    (ArbitrageX.breakerRun ⟨5, 60, 30⟩ ArbitrageX.Breaker.init
        (([0, 1, 2, 3, 4] : List ℚ).map fun t => (t, false))).state =
      ArbitrageX.CircuitState.opened :=
  (ArbitrageX.circuit_breaker_lifecycle ⟨5, 60, 30⟩ (by norm_num)).1
    [0, 1, 2, 3, 4] (by simp)

namespace ArbitrageX

/-- The `self.limits` table configured in `RateLimiter.__init__`:
categories `default`, `api`, `binance` with their per-scope
requests/window pairs. -/
def configuredLimits (category scope : String) : Option RateLimit :=
  if category = "default" then
    if scope = "global" then some ⟨1000, 3600⟩
    else if scope = "burst" then some ⟨100, 60⟩
    else none
  else if category = "api" then
    if scope = "global" then some ⟨10000, 3600⟩
    else if scope = "ip" then some ⟨100, 60⟩
    else if scope = "user" then some ⟨1000, 3600⟩
    else none
  else if category = "binance" then
    if scope = "orders" then some ⟨10, 1⟩
    else if scope = "weight" then some ⟨1200, 60⟩
    else none
  else none

end ArbitrageX

/-- C5: starting from a fresh `(key, scope)` window opened at `t0` with
limit `N = limit.requests ≥ 1`, the `N` cost-1 checks submitted inside
the window are all accepted; the `(N+1)`-th check inside the same window
is rejected and leaves the state untouched; a check after the window
duration has elapsed since `windowStart` resets the counter lazily and is
accepted; and, in general, a check with no pending reset is rejected
exactly when `requests + cost > limit.requests`. -/
theorem ArbitrageX.rate_limiter_window (limit : ArbitrageX.RateLimit)
    (t0 lr0 : ℚ) (ts : List ℚ) (hpos : 1 ≤ limit.requests)
    (hlen : ts.length = limit.requests)
    (hin : ∀ t ∈ ts, t - t0 < limit.window) :
    (∀ v ∈ (ArbitrageX.limiterRun limit ⟨0, t0, lr0⟩ ts).1, v = true)
    ∧ (∀ t : ℚ, t - t0 < limit.window →
        ArbitrageX.checkStep limit
            (ArbitrageX.limiterRun limit ⟨0, t0, lr0⟩ ts).2 t 1 =
          (false, (ArbitrageX.limiterRun limit ⟨0, t0, lr0⟩ ts).2))
    ∧ (∀ t : ℚ, limit.window ≤ t - t0 →
        ArbitrageX.checkStep limit
            (ArbitrageX.limiterRun limit ⟨0, t0, lr0⟩ ts).2 t 1 =
          (true, ⟨1, t, t⟩))
    ∧ (∀ (info : ArbitrageX.RateLimitInfo) (t : ℚ) (c : ℕ),
        ¬ ArbitrageX.shouldReset limit info t →
        ((ArbitrageX.checkStep limit info t c).1 = false ↔
          limit.requests < info.requests + c)) := by
  open ArbitrageX in
  have hrun := limiterRun_all_accept limit ts 0 t0 lr0
    (by omega) hin
  obtain ⟨hoks, hreq, hstart⟩ := hrun
  refine ⟨?_, ?_, ?_, ?_⟩
  · intro v hv
    rw [hoks] at hv
    obtain ⟨a, _, hfa⟩ := List.mem_map.mp hv
    exact hfa.symm
  · intro t ht
    apply checkStep_reject
    · simp only [shouldReset, hstart, decide_eq_true_eq, not_le]
      exact ht
    · rw [hreq]
      omega
  · intro t ht
    apply checkStep_fresh _ _ _ _ hpos
    simp only [shouldReset, hstart, decide_eq_true_eq]
    exact ht
  · intro info t c hres
    constructor
    · intro hfalse
      by_contra hnot
      have : ¬ limit.requests < info.requests + c := hnot
      simp [checkStep, hres, this] at hfalse
    · intro hover
      rw [checkStep_reject limit info t c hres hover]

/-- Witness for C5: with a limit of 2 requests per 60 s window opened at
time 0, two accepted requests fill the window and a third request at
time 30 is rejected with the state unchanged. -/
theorem ArbitrageX.rate_limiter_window_witness :
    ArbitrageX.checkStep ⟨2, 60⟩
        (ArbitrageX.limiterRun ⟨2, 60⟩ ⟨0, 0, 0⟩ [0, 1]).2 30 1 =
      (false, (ArbitrageX.limiterRun ⟨2, 60⟩ ⟨0, 0, 0⟩ [0, 1]).2) :=
  (ArbitrageX.rate_limiter_window ⟨2, 60⟩ 0 0 [0, 1] (by norm_num)
      (by simp)
      (by intro t ht
          simp only [List.mem_cons, List.not_mem_nil, or_false] at ht
          rcases ht with h | h <;> subst h <;> norm_num)).2.1
    30 (by norm_num)

/-- C10: `check_rate_limit` fails open — a lookup of a category/scope pair
absent from the configured limits table raises a `KeyError` that the
generic handler converts into an allowed request, and no usage counter is
updated. -/
theorem ArbitrageX.rate_limiter_fails_open
    (limits : String → String → Option ArbitrageX.RateLimit)
    (st : String → String → ArbitrageX.RateLimitInfo)
    (category scope key : String) (now : ℚ) (cost : ℕ)
    (h : limits category scope = none) :
    ArbitrageX.checkRateLimit limits st category scope key now cost =
      (true, st) := by
  simp [ArbitrageX.checkRateLimit, h]

/-- Witness for C10: the configured table has no `ip` scope under the
`binance` category, so such a check is allowed and leaves the usage state
untouched. -/
theorem ArbitrageX.rate_limiter_fails_open_witness :
    ArbitrageX.checkRateLimit ArbitrageX.configuredLimits
        (fun _ _ => ⟨0, 0, 0⟩) "binance" "ip" "client" 0 1 =
      (true, fun _ _ => ⟨0, 0, 0⟩) :=
  ArbitrageX.rate_limiter_fails_open ArbitrageX.configuredLimits
    (fun _ _ => ⟨0, 0, 0⟩) "binance" "ip" "client" 0 1 (by decide)

namespace ArbitrageX

/-! ## Websocket bounded buffer (`core/binance_websocket.py`) -/

/-- Result of one `handle_socket_message` invocation in
`start_multiplex_socket`: the queue contents after the call, the messages
the overflow branch processed inline, and the messages discarded. -/
structure BufferStep (α : Type) where
  buffer : List α
  processed : List α
  dropped : List α
  deriving DecidableEq, Repr

/-- `handle_socket_message`: when `self._stream_buffer` is not full the
incoming message is enqueued; when it is full, the handler logs that the
incoming message is being discarded and then drains the whole queue,
processing every previously buffered message inline via
`_process_message`. -/
def handleSocketMessage {α : Type} (maxsize : ℕ) (buffer : List α)
    (msg : α) : BufferStep α :=
  if buffer.length < maxsize then
    ⟨buffer ++ [msg], [], []⟩
  else
    ⟨[], buffer, [msg]⟩

/-! ## Price cache writers (`core/bot_core.py`) -/

/-- One `price_cache` entry.  The stream path
(`_process_stream_message`) stores `bidVolume`/`askVolume` and no
`volume` key; the update path (`_process_price_update`) stores `volume`.
A key the writing path does not set is `none`. -/
structure PriceData where
  bid : ℚ
  ask : ℚ
  volume : Option ℚ
  bidVolume : Option ℚ
  askVolume : Option ℚ
  timestamp : ℚ
  latency : ℚ
  deriving DecidableEq, Repr

/-- Python dict assignment `self.price_cache[symbol] = price_data`:
replaces the value in place when the key exists, appends otherwise. -/
def cacheUpdate : List (String × PriceData) → String → PriceData →
    List (String × PriceData)
  | [], s, d => [(s, d)]
  | (k, v) :: rest, s, d =>
      if k = s then (k, d) :: rest else (k, v) :: cacheUpdate rest s d

/-- A `bookTicker` frame as read by `_process_stream_message`
(fields `e`, `s`, `b`, `a`, `B`, `A`, `E` of the Binance payload). -/
structure BookTickerMsg where
  e : String
  s : String
  b : ℚ
  a : ℚ
  bQty : ℚ
  aQty : ℚ
  eventTime : ℚ
  deriving DecidableEq, Repr

/-- `BotCore._process_stream_message`: for a `bookTicker` frame, computes
`latency = now*1000 - eventTime` and writes the quote into the cache iff
`latency < 500`; no other validation is applied to the prices. -/
def processStreamMessage (cache : List (String × PriceData))
    (msg : BookTickerMsg) (now : ℚ) : List (String × PriceData) :=
  if msg.e = "bookTicker" then
    let latency := now * 1000 - msg.eventTime
    if latency < 500 then
      cacheUpdate cache msg.s
        ⟨msg.b, msg.a, none, some msg.bQty, some msg.aQty, now, latency⟩
    else cache
  else cache

/-- `BotCore._process_price_update`: rejects the record when
`ask <= 0` or `bid <= 0`, otherwise writes it into the cache. -/
def processPriceUpdate (cache : List (String × PriceData))
    (symbol : String) (askPrice bidPrice volume msgTime now : ℚ) :
    List (String × PriceData) :=
  let latency := (now - msgTime / 1000) * 1000
  if askPrice ≤ 0 ∨ bidPrice ≤ 0 then cache
  else
    cacheUpdate cache symbol
      ⟨bidPrice, askPrice, some volume, none, none, now, latency⟩

lemma mem_cacheUpdate (c : List (String × PriceData)) (k : String)
    (v : PriceData) (s : String) (d : PriceData)
    (h : (s, d) ∈ cacheUpdate c k v) :
    (s, d) ∈ c ∨ (s = k ∧ d = v) := by
  induction c with
  | nil =>
      simp only [cacheUpdate, List.mem_singleton, Prod.mk.injEq] at h
      exact Or.inr h
  | cons e rest ih =>
      obtain ⟨ek, ev⟩ := e
      simp only [cacheUpdate] at h
      by_cases hk : ek = k
      · simp only [hk, if_true, List.mem_cons, Prod.mk.injEq] at h
        rcases h with ⟨hs, hd⟩ | h
        · exact Or.inr ⟨hs ▸ rfl, hd⟩
        · exact Or.inl (List.mem_cons_of_mem _ h)
      · simp only [hk, if_false, List.mem_cons] at h
        rcases h with h | h
        · exact Or.inl (by simp [h])
        · rcases ih h with h | h
          · exact Or.inl (List.mem_cons_of_mem _ h)
          · exact Or.inr h

end ArbitrageX

/-- Counterexample to C7: with a full queue `[1, 2]` of capacity 2 and a
newly arrived message `3`, `handle_socket_message` does not keep the new
message and drop the oldest — it discards the new message and drains the
queue, processing both old messages inline. -/
theorem ArbitrageX.websocket_overflow_counterexample :
    ArbitrageX.handleSocketMessage 2 [1, 2] 3 =
        ⟨[], [1, 2], [3]⟩ ∧
      3 ∉ (ArbitrageX.handleSocketMessage 2 [1, 2] 3).buffer ∧
      1 ∈ (ArbitrageX.handleSocketMessage 2 [1, 2] 3).processed := by
  refine ⟨?_, ?_, ?_⟩ <;> decide

/-- C7 as amended: the handler enqueues only when the queue is not full,
so it never waits for queue space and the queue never exceeds its bound;
on overflow the newly arrived message is discarded (and the overflow
logged) while every previously buffered message is drained and processed
inline. -/
theorem ArbitrageX.websocket_overflow {α : Type} (maxsize : ℕ)
    (buffer : List α) (msg : α) (_hle : buffer.length ≤ maxsize) :
    (ArbitrageX.handleSocketMessage maxsize buffer msg).buffer.length ≤
        maxsize
    ∧ (buffer.length < maxsize →
        ArbitrageX.handleSocketMessage maxsize buffer msg =
          ⟨buffer ++ [msg], [], []⟩)
    ∧ (buffer.length = maxsize →
        ArbitrageX.handleSocketMessage maxsize buffer msg =
          ⟨[], buffer, [msg]⟩) := by
  by_cases h : buffer.length < maxsize
  · refine ⟨?_, fun _ => ?_, fun heq => ?_⟩
    · simp [ArbitrageX.handleSocketMessage, h]
      omega
    · simp [ArbitrageX.handleSocketMessage, h]
    · omega
  · refine ⟨?_, fun hlt => absurd hlt h, fun _ => ?_⟩
    · simp [ArbitrageX.handleSocketMessage, h]
    · simp [ArbitrageX.handleSocketMessage, h]

/-- Witness for amended C7 at the counterexample's input: capacity 2,
full queue `[1, 2]`, new message `3`. -/
theorem ArbitrageX.websocket_overflow_witness :
    ((ArbitrageX.handleSocketMessage 2 [1, 2] 3).buffer.length ≤ 2)
    ∧ (([1, 2] : List ℕ).length < 2 →
        ArbitrageX.handleSocketMessage 2 [1, 2] 3 = ⟨[1, 2, 3], [], []⟩)
    ∧ (([1, 2] : List ℕ).length = 2 →
        ArbitrageX.handleSocketMessage 2 [1, 2] 3 = ⟨[], [1, 2], [3]⟩) :=
  ArbitrageX.websocket_overflow 2 [1, 2] 3 (by decide)

/-- Counterexample to C6: `_process_stream_message` admits a `bookTicker`
quote with `bid = 2 > ask = 1` into an empty cache (its only check is
`latency < 500`), so admitted quotes do not all satisfy `ask >= bid`. -/
theorem ArbitrageX.stream_admission_counterexample :
    ArbitrageX.processStreamMessage []
        ⟨"bookTicker", "ETHBTC", 2, 1, 1, 1, 0⟩ 0 =
      [("ETHBTC", ⟨2, 1, none, some 1, some 1, 0, 0⟩)] ∧
    ¬ ((1 : ℚ) ≥ 2) := by
  constructor
  · simp only [ArbitrageX.processStreamMessage]
    norm_num [ArbitrageX.cacheUpdate]
  · norm_num

/-- C6 as amended: the stream path rejects a frame whose receive latency
is at or above 500 ms (or whose event type is not `bookTicker`), leaving
the cache unchanged; below the ceiling it admits the quote verbatim with
no bid/ask validity check; separately, `_process_price_update` only ever
admits quotes with `bid > 0` and `ask > 0` (it does not check
`ask >= bid`). -/
theorem ArbitrageX.stream_quote_admission :
    (∀ (cache : List (String × ArbitrageX.PriceData))
        (msg : ArbitrageX.BookTickerMsg) (now : ℚ),
        500 ≤ now * 1000 - msg.eventTime →
        ArbitrageX.processStreamMessage cache msg now = cache)
    ∧ (∀ (cache : List (String × ArbitrageX.PriceData))
        (msg : ArbitrageX.BookTickerMsg) (now : ℚ),
        msg.e = "bookTicker" → now * 1000 - msg.eventTime < 500 →
        ArbitrageX.processStreamMessage cache msg now =
          ArbitrageX.cacheUpdate cache msg.s
            ⟨msg.b, msg.a, none, some msg.bQty, some msg.aQty, now,
              now * 1000 - msg.eventTime⟩)
    ∧ (∀ (cache : List (String × ArbitrageX.PriceData))
        (symbol : String) (ask bid vol mt now : ℚ) (s : String)
        (d : ArbitrageX.PriceData),
        (s, d) ∈ ArbitrageX.processPriceUpdate cache symbol ask bid vol mt
            now →
        (s, d) ∈ cache ∨ (0 < d.bid ∧ 0 < d.ask)) := by
  refine ⟨?_, ?_, ?_⟩
  · intro cache msg now hlat
    simp [ArbitrageX.processStreamMessage, not_lt.mpr hlat]
  · intro cache msg now he hlat
    simp [ArbitrageX.processStreamMessage, he, hlat]
  · intro cache symbol ask bid vol mt now s d hmem
    simp only [ArbitrageX.processPriceUpdate] at hmem
    by_cases hneg : ask ≤ 0 ∨ bid ≤ 0
    · simp only [hneg, if_true] at hmem
      exact Or.inl hmem
    · simp only [hneg, if_false] at hmem
      push_neg at hneg
      rcases ArbitrageX.mem_cacheUpdate _ _ _ _ _ hmem with h | ⟨_, hd⟩
      · exact Or.inl h
      · subst hd
        exact Or.inr ⟨hneg.2, hneg.1⟩

/-- Witness for amended C6: a frame generated 1 s before receipt
(latency 1000 ms ≥ 500 ms) leaves an empty cache empty. -/
theorem ArbitrageX.stream_quote_admission_witness :
    ArbitrageX.processStreamMessage []
        ⟨"bookTicker", "BTCUSDT", 1, 1, 1, 1, 0⟩ 1 = [] :=
  ArbitrageX.stream_quote_admission.1 [] ⟨"bookTicker", "BTCUSDT", 1, 1, 1, 1, 0⟩
    1 (by norm_num)

namespace ArbitrageX

/-! ## Opportunity detection (`core/bot_core.py`) -/

/-- Python substring test `pat in s`, on the character lists of the two
strings. -/
def containsAux (s pat : List Char) : Bool :=
  match s with
  | [] => pat.isEmpty
  | _ :: rest => pat.isPrefixOf s || containsAux rest pat

/-- Python `pat in s` for strings. -/
def strContains (s pat : String) : Bool :=
  containsAux s.data pat.data

/-- Left-to-right, non-overlapping removal of every occurrence of `pat`,
fuelled by the length of the scanned list so the recursion is structural;
the fuel never runs out because each step consumes at least one
character. -/
def removeAllAux (pat : List Char) : ℕ → List Char → List Char
  | _, [] => []
  | 0, s => s
  | fuel + 1, c :: rest =>
      if pat ≠ [] ∧ pat.isPrefixOf (c :: rest) then
        removeAllAux pat fuel ((c :: rest).drop pat.length)
      else c :: removeAllAux pat fuel rest

/-- Python `s.replace(pat, '')` for a nonempty `pat`. -/
def strRemoveAll (s pat : String) : String :=
  ⟨removeAllAux pat.data s.data.length s.data⟩

/-- Python `s.startswith(pat)`. -/
def strStartsWith (s pat : String) : Bool :=
  pat.data.isPrefixOf s.data

/-- Banker's rounding of a rational to an integer, the default rounding of
Python's `round` and of `Decimal.quantize`. -/
def roundHalfEven (x : ℚ) : ℤ :=
  let f := ⌊x⌋
  let r := x - f
  if r < 1 / 2 then f
  else if 1 / 2 < r then f + 1
  else if f % 2 = 0 then f else f + 1

/-- Python `round(x, d)`. -/
def roundTo (d : ℕ) (x : ℚ) : ℚ :=
  (roundHalfEven (x * 10 ^ d) : ℚ) / 10 ^ d

/-- Python dict lookup `snapshot[symbol]` as an option. -/
def snapLookup : List (String × PriceData) → String → Option PriceData
  | [], _ => none
  | (k, v) :: rest, s => if k = s then some v else snapLookup rest s

/-- `BotCore._calculate_triangular_profit`: requires all six prices to be
strictly positive, computes the two traversal directions, subtracts the
0.1% fee three times (additively, one subtraction per operation), and
returns the larger direction in percent — only when positive. -/
def calcTriangularProfit (p1 p2 p3 : PriceData) : Option ℚ :=
  if 0 < p1.ask ∧ 0 < p1.bid ∧ 0 < p2.ask ∧ 0 < p2.bid ∧ 0 < p3.ask ∧
      0 < p3.bid then
    let profit1 := (1 / p1.ask) * p2.bid * p3.bid - 1 - 1 / 1000 * 3
    let profit2 := (1 / p3.ask) * (1 / p2.ask) * p1.bid - 1 - 1 / 1000 * 3
    let best := max profit1 profit2 * 100
    if 0 < best then some best else none
  else none

/-- `BotCore._calculate_max_volume`: reads the (possibly missing)
`volume` field of each leg, converts non-BTC-quoted volumes using the ask
price, takes the route minimum capped at 0.1 BTC, and rounds to 8
decimals. -/
def calcMaxVolume (pair1 pair2 pair3 : String) (p1 p2 p3 : PriceData) :
    ℚ :=
  let v1 := p1.volume.getD 0
  let v2 := p2.volume.getD 0
  let v3 := p3.volume.getD 0
  let v1 := if strStartsWith pair1 "BTC" then v1 else v1 * p1.ask
  let v2 := if strStartsWith pair2 "BTC" then v2 else v2 * p2.ask
  let v3 := if strStartsWith pair3 "BTC" then v3 else v3 * p3.ask
  let maxVolume := min (min v1 v2) v3
  let maxVolume := min maxVolume (1 / 10)
  roundTo 8 maxVolume

/-- An opportunity record as assembled by
`_detect_arbitrage_opportunities`.  The source stores `id` as the decimal
string of the position and `timestamp` as an ISO-format string of the
cycle's wall-clock instant; they are modelled by the position itself and
by the rational instant. -/
structure Opportunity where
  id : ℕ
  aStepFrom : String
  aStepTo : String
  bStepFrom : String
  bStepTo : String
  cStepFrom : String
  cStepTo : String
  profit : ℚ
  aVolume : ℚ
  timestamp : ℚ
  rate : ℚ
  latency : ℚ
  status : String
  aRate : ℚ
  bRate : ℚ
  cRate : ℚ
  deriving DecidableEq, Repr

/-- Body of the innermost `for pair2 in base_markets` loop of
`_detect_arbitrage_opportunities`: skip identical pairs, derive the two
assets by removing the base, resolve the third symbol (either asset
order), compute the profit, and append an opportunity when it exceeds
0.1%. -/
def considerPair (recent : List (String × PriceData)) (t : ℚ)
    (base : String) (acc : List Opportunity)
    (e1 e2 : String × PriceData) : List Opportunity :=
  if e1.1 = e2.1 then acc
  else
    let asset1 := strRemoveAll e1.1 base
    let asset2 := strRemoveAll e2.1 base
    if asset1 = "" ∨ asset2 = "" then acc
    else
      let pair3opt :=
        match snapLookup recent (asset1 ++ asset2) with
        | some d => some (asset1 ++ asset2, d)
        | none =>
            match snapLookup recent (asset2 ++ asset1) with
            | some d => some (asset2 ++ asset1, d)
            | none => none
      match pair3opt with
      | none => acc
      | some (pair3, d3) =>
          match calcTriangularProfit e1.2 e2.2 d3 with
          | none => acc
          | some profit =>
              if 1 / 10 < profit then
                let volume := calcMaxVolume e1.1 e2.1 pair3 e1.2 e2.2 d3
                let maxLatency := max (max e1.2.latency e2.2.latency)
                  d3.latency
                acc ++ [⟨acc.length + 1, base, asset1, asset1, asset2,
                  asset2, base, roundTo 3 profit, volume, t,
                  1 + profit / 100, roundTo 2 maxLatency, "active",
                  e1.2.ask, e2.2.ask, d3.ask⟩]
              else acc

/-- The `base_pairs` list of `_detect_arbitrage_opportunities`. -/
def basePairs : List String := ["BTC", "ETH", "BNB", "USDT", "BUSD"]

/-- The three nested loops of `_detect_arbitrage_opportunities` over an
already-filtered snapshot: for each base, the markets whose symbol
contains the base, and every ordered pair of distinct markets.  The
snapshot's keys are unique (it comes from a Python dict), so iterating
its entries matches the source's iteration over keys followed by
indexing. -/
def detectCore (recent : List (String × PriceData)) (t : ℚ) :
    List Opportunity :=
  basePairs.foldl
    (fun accB base =>
      let markets := recent.filter fun e => strContains e.1 base
      markets.foldl
        (fun acc1 e1 =>
          markets.foldl (fun acc2 e2 => considerPair recent t base acc2 e1 e2)
            acc1)
        accB)
    []

/-- The staleness filter of `_detect_arbitrage_opportunities`: only cache
entries with `time.time() - data['timestamp'] < 5` survive into
`recent_pairs`. -/
def recentPairs (cache : List (String × PriceData)) (now : ℚ) :
    List (String × PriceData) :=
  cache.filter fun e => now - e.2.timestamp < 5

/-- `_detect_arbitrage_opportunities`: copy the cache, keep the recent
entries, and run the detection loops over them. -/
def detectOpportunities (cache : List (String × PriceData)) (now : ℚ) :
    List Opportunity :=
  detectCore (recentPairs cache now) now

/-- Every field of an opportunity except its timestamp, for stating that
detection depends on the cycle instant only through the timestamp. -/
def Opportunity.core (o : Opportunity) :
    ℕ × String × String × String × String × String × String × ℚ × ℚ × ℚ ×
      ℚ × String × ℚ × ℚ × ℚ :=
  (o.id, o.aStepFrom, o.aStepTo, o.bStepFrom, o.bStepTo, o.cStepFrom,
    o.cStepTo, o.profit, o.aVolume, o.rate, o.latency, o.status, o.aRate,
    o.bRate, o.cRate)

/-- The spec's manual profit formula for C1, written from the spec's own
words: fee factor `(1 - fee)` multiplied in once per leg,
`(1/askA)×bidB×bidC×(1-fee)³ - 1`, in the better of the two traversal
directions. -/
def specManualProfit (p1 p2 p3 : PriceData) (fee : ℚ) : ℚ :=
  max ((1 / p1.ask) * p2.bid * p3.bid * (1 - fee) ^ 3 - 1)
    ((1 / p3.ask) * (1 / p2.ask) * p1.bid * (1 - fee) ^ 3 - 1)

/-- The profit formula the detection step actually computes, stated in
the amended claim's words: the larger of the two directional gross rates,
minus 1, minus the 0.1% fee three times (once per leg, additively),
expressed in percent. -/
def amendedProfit (p1 p2 p3 : PriceData) (fee : ℚ) : ℚ :=
  (max ((1 / p1.ask) * p2.bid * p3.bid)
      ((1 / p3.ask) * (1 / p2.ask) * p1.bid) - 1 - fee * 3) * 100

end ArbitrageX

/-- Counterexample to C1: at `askA = 1/100`, `bidB = bidC = 10` (all other
prices 1 or 10, strictly positive), the detection step computes a profit
rate of `9998.997` while the spec's manual formula with the fee factor
`(1-fee)³` multiplied in gives `9969.02999…`; the gap exceeds 29, so no
fixed epsilon reconciles the two — the code subtracts `3×fee` additively
instead of compounding `(1-fee)` per leg. -/
theorem ArbitrageX.detect_profit_counterexample :
    ArbitrageX.calcTriangularProfit ⟨1, 1 / 100, none, none, none, 0, 0⟩
        ⟨10, 10, none, none, none, 0, 0⟩ ⟨10, 10, none, none, none, 0, 0⟩ =
      some (9998997 / 10) ∧
    (9998997 / 10 : ℚ) / 100 -
        ArbitrageX.specManualProfit ⟨1, 1 / 100, none, none, none, 0, 0⟩
          ⟨10, 10, none, none, none, 0, 0⟩ ⟨10, 10, none, none, none, 0, 0⟩
          (1 / 1000) > 29 := by
  constructor
  · norm_num [ArbitrageX.calcTriangularProfit, max_def]
  · norm_num [ArbitrageX.specManualProfit, max_def]

/-- C1 as amended: for every valid triangle (all six prices strictly
positive), the profit computed by `_calculate_triangular_profit` equals
exactly `(max(grossRate₁, grossRate₂) - 1 - 3×0.001) × 100` — the 0.1%
fee subtracted additively once per leg, not multiplied in as `(1-fee)` —
and is reported only when positive. -/
theorem ArbitrageX.detect_profit_additive_fee
    (p1 p2 p3 : ArbitrageX.PriceData)
    (h : 0 < p1.ask ∧ 0 < p1.bid ∧ 0 < p2.ask ∧ 0 < p2.bid ∧ 0 < p3.ask ∧
      0 < p3.bid) :
    ArbitrageX.calcTriangularProfit p1 p2 p3 =
      if 0 < ArbitrageX.amendedProfit p1 p2 p3 (1 / 1000) then
        some (ArbitrageX.amendedProfit p1 p2 p3 (1 / 1000))
      else none := by
  have hmax : max ((1 / p1.ask) * p2.bid * p3.bid - 1 - 1 / 1000 * 3)
      ((1 / p3.ask) * (1 / p2.ask) * p1.bid - 1 - 1 / 1000 * 3) =
      max ((1 / p1.ask) * p2.bid * p3.bid)
        ((1 / p3.ask) * (1 / p2.ask) * p1.bid) - 1 - 1 / 1000 * 3 := by
    rw [sub_sub, sub_sub, max_sub_sub_right, ← sub_sub]
  simp only [ArbitrageX.calcTriangularProfit, if_pos h,
    ArbitrageX.amendedProfit, hmax]

/-- Witness for amended C1 at the counterexample's prices. -/
theorem ArbitrageX.detect_profit_additive_fee_witness :
    ArbitrageX.calcTriangularProfit ⟨1, 1 / 100, none, none, none, 0, 0⟩
        ⟨10, 10, none, none, none, 0, 0⟩ ⟨10, 10, none, none, none, 0, 0⟩ =
      if 0 < ArbitrageX.amendedProfit ⟨1, 1 / 100, none, none, none, 0, 0⟩
          ⟨10, 10, none, none, none, 0, 0⟩ ⟨10, 10, none, none, none, 0, 0⟩
          (1 / 1000) then
        some (ArbitrageX.amendedProfit ⟨1, 1 / 100, none, none, none, 0, 0⟩
          ⟨10, 10, none, none, none, 0, 0⟩ ⟨10, 10, none, none, none, 0, 0⟩
          (1 / 1000))
      else none :=
  ArbitrageX.detect_profit_additive_fee _ _ _
    (by refine ⟨?_, ?_, ?_, ?_, ?_, ?_⟩ <;> norm_num)

namespace ArbitrageX

lemma snapLookup_mem (recent : List (String × PriceData)) (s : String)
    (d : PriceData) (h : snapLookup recent s = some d) : (s, d) ∈ recent := by
  induction recent with
  | nil => simp [snapLookup] at h
  | cons e rest ih =>
      obtain ⟨k, v⟩ := e
      simp only [snapLookup] at h
      by_cases hk : k = s
      · rw [if_pos hk] at h
        injection h with h
        subst hk; subst h
        exact List.mem_cons_self _ _
      · rw [if_neg hk] at h
        exact List.mem_cons_of_mem _ (ih h)

lemma pair3opt_mem (recent : List (String × PriceData)) (x y p : String)
    (d : PriceData)
    (h : (match snapLookup recent x with
          | some d => some (x, d)
          | none =>
              match snapLookup recent y with
              | some d => some (y, d)
              | none => none) = some (p, d)) : (p, d) ∈ recent := by
  cases hx : snapLookup recent x with
  | some dx =>
      rw [hx] at h
      simp only [Option.some.injEq, Prod.mk.injEq] at h
      obtain ⟨hp, hd⟩ := h
      subst hp; subst hd
      exact snapLookup_mem recent x dx hx
  | none =>
      rw [hx] at h
      cases hy : snapLookup recent y with
      | some dy =>
          rw [hy] at h
          simp only [Option.some.injEq, Prod.mk.injEq] at h
          obtain ⟨hp, hd⟩ := h
          subst hp; subst hd
          exact snapLookup_mem recent y dy hy
      | none => rw [hy] at h; simp at h

/-- The provenance property for C4: every leg rate of the opportunity is
the ask price of some entry of the snapshot `recent`. -/
def LegsFrom (recent : List (String × PriceData)) (o : Opportunity) :
    Prop :=
  ∃ e1 e2 e3 : String × PriceData, e1 ∈ recent ∧ e2 ∈ recent ∧
    e3 ∈ recent ∧ o.aRate = e1.2.ask ∧ o.bRate = e2.2.ask ∧
    o.cRate = e3.2.ask

lemma considerPair_legs (recent : List (String × PriceData)) (t : ℚ)
    (base : String) (acc : List Opportunity) (e1 e2 : String × PriceData)
    (he1 : e1 ∈ recent) (he2 : e2 ∈ recent)
    (hacc : ∀ o ∈ acc, LegsFrom recent o) :
    ∀ o ∈ considerPair recent t base acc e1 e2, LegsFrom recent o := by
  intro o ho
  simp only [considerPair] at ho
  split at ho
  · exact hacc o ho
  · split at ho
    · exact hacc o ho
    · split at ho
      · exact hacc o ho
      · rename_i pair3 d3 heq
        split at ho
        · exact hacc o ho
        · split at ho
          · rcases List.mem_append.mp ho with h | h
            · exact hacc o h
            · simp only [List.mem_singleton] at h
              subst h
              exact ⟨e1, e2, (pair3, d3), he1, he2,
                pair3opt_mem recent _ _ pair3 d3 heq, rfl, rfl, rfl⟩
          · exact hacc o ho

lemma foldl_preserve {α β : Type} (P : α → Prop) (f : α → β → α)
    (l : List β) (hstep : ∀ a x, x ∈ l → P a → P (f a x)) :
    ∀ a, P a → P (l.foldl f a) := by
  induction l with
  | nil => intro a ha; simpa using ha
  | cons x xs ih =>
      intro a ha
      simp only [List.foldl_cons]
      exact ih (fun b y hy hb => hstep b y (List.mem_cons_of_mem x hy) hb)
        (f a x) (hstep a x (List.mem_cons_self x xs) ha)

lemma detectCore_legs (recent : List (String × PriceData)) (t : ℚ) :
    ∀ o ∈ detectCore recent t, LegsFrom recent o := by
  unfold detectCore
  apply foldl_preserve (fun acc => ∀ o ∈ acc, LegsFrom recent o)
  · intro accB base _ hacc
    apply foldl_preserve (fun acc => ∀ o ∈ acc, LegsFrom recent o)
    · intro acc1 e1 he1 hacc1
      apply foldl_preserve (fun acc => ∀ o ∈ acc, LegsFrom recent o)
      · intro acc2 e2 he2 hacc2
        exact considerPair_legs recent t base acc2 e1 e2
          (List.mem_of_mem_filter he1) (List.mem_of_mem_filter he2) hacc2
      · exact hacc1
    · exact hacc
  · intro o ho
    simp at ho

lemma mem_recentPairs (cache : List (String × PriceData)) (now : ℚ)
    (e : String × PriceData) (h : e ∈ recentPairs cache now) :
    e ∈ cache ∧ now - e.2.timestamp < 5 := by
  have := List.mem_filter.mp h
  exact ⟨this.1, by simpa using this.2⟩

end ArbitrageX

/-- C4: an entry whose age at snapshot time is 5 seconds or more is
excluded from the recent snapshot the detection loops read, and every leg
rate of every opportunity a cycle produces is the ask price of an entry
of that snapshot — an entry whose age is strictly below 5 seconds.  In
particular no quote older than the 5-second staleness window contributes
a leg to any opportunity. -/
theorem ArbitrageX.detector_excludes_stale
    (cache : List (String × ArbitrageX.PriceData)) (now : ℚ) :
    (∀ e : String × ArbitrageX.PriceData, e ∈ cache →
        5 ≤ now - e.2.timestamp → e ∉ ArbitrageX.recentPairs cache now)
    ∧ (∀ o ∈ ArbitrageX.detectOpportunities cache now,
        ∃ e1 e2 e3 : String × ArbitrageX.PriceData,
          e1 ∈ ArbitrageX.recentPairs cache now ∧
          e2 ∈ ArbitrageX.recentPairs cache now ∧
          e3 ∈ ArbitrageX.recentPairs cache now ∧
          now - e1.2.timestamp < 5 ∧ now - e2.2.timestamp < 5 ∧
          now - e3.2.timestamp < 5 ∧
          o.aRate = e1.2.ask ∧ o.bRate = e2.2.ask ∧
          o.cRate = e3.2.ask) := by
  constructor
  · intro e _ hage hmem
    exact absurd (ArbitrageX.mem_recentPairs cache now e hmem).2
      (not_lt.mpr hage)
  · intro o ho
    obtain ⟨e1, e2, e3, h1, h2, h3, ha, hb, hc⟩ :=
      ArbitrageX.detectCore_legs (ArbitrageX.recentPairs cache now) now o ho
    exact ⟨e1, e2, e3, h1, h2, h3,
      (ArbitrageX.mem_recentPairs cache now e1 h1).2,
      (ArbitrageX.mem_recentPairs cache now e2 h2).2,
      (ArbitrageX.mem_recentPairs cache now e3 h3).2, ha, hb, hc⟩

/-- Witness for C4: a cache entry stamped at time 0 is excluded from the
snapshot taken at time 10. -/
theorem ArbitrageX.detector_excludes_stale_witness :
    ("BTCUSDT", (⟨1, 1, none, none, none, 0, 0⟩ : ArbitrageX.PriceData)) ∉
      ArbitrageX.recentPairs
        [("BTCUSDT", ⟨1, 1, none, none, none, 0, 0⟩)] 10 :=
  (ArbitrageX.detector_excludes_stale
      [("BTCUSDT", ⟨1, 1, none, none, none, 0, 0⟩)] 10).1
    ("BTCUSDT", ⟨1, 1, none, none, none, 0, 0⟩) (by simp) (by norm_num)

namespace ArbitrageX

lemma foldl_rel {α β : Type} (R : α → α → Prop) (f g : α → β → α)
    (hstep : ∀ a b x, R a b → R (f a x) (g b x)) :
    ∀ (l : List β) (a b : α), R a b → R (l.foldl f a) (l.foldl g b) := by
  intro l
  induction l with
  | nil => intro a b h; simpa using h
  | cons x xs ih =>
      intro a b h
      simp only [List.foldl_cons]
      exact ih (f a x) (g b x) (hstep a b x h)

lemma considerPair_core_eq (recent : List (String × PriceData))
    (t1 t2 : ℚ) (base : String) (e1 e2 : String × PriceData)
    (acc1 acc2 : List Opportunity)
    (h : acc1.map Opportunity.core = acc2.map Opportunity.core) :
    (considerPair recent t1 base acc1 e1 e2).map Opportunity.core =
      (considerPair recent t2 base acc2 e1 e2).map Opportunity.core := by
  have hlen : acc1.length = acc2.length := by
    have := congrArg List.length h
    simpa using this
  by_cases h12 : e1.1 = e2.1
  · simpa [considerPair, h12] using h
  · simp only [considerPair, if_neg h12]
    by_cases hempty : strRemoveAll e1.1 base = "" ∨
        strRemoveAll e2.1 base = ""
    · simpa [hempty] using h
    · simp only [if_neg hempty]
      cases h3 : (match snapLookup recent
            (strRemoveAll e1.1 base ++ strRemoveAll e2.1 base) with
          | some d => some (strRemoveAll e1.1 base ++
              strRemoveAll e2.1 base, d)
          | none =>
              match snapLookup recent
                  (strRemoveAll e2.1 base ++ strRemoveAll e1.1 base) with
              | some d => some (strRemoveAll e2.1 base ++
                  strRemoveAll e1.1 base, d)
              | none => none) with
      | none => simpa [h3] using h
      | some pr =>
          obtain ⟨pair3, d3⟩ := pr
          simp only [h3]
          cases hp : calcTriangularProfit e1.2 e2.2 d3 with
          | none => simpa [hp] using h
          | some profit =>
              simp only [hp]
              by_cases hprof : (1 : ℚ) / 10 < profit
              · simp only [if_pos hprof, List.map_append, List.map_cons,
                  List.map_nil, Opportunity.core, hlen, h]
              · simp only [if_neg hprof]
                exact h

lemma detectCore_core_eq (recent : List (String × PriceData))
    (t1 t2 : ℚ) :
    (detectCore recent t1).map Opportunity.core =
      (detectCore recent t2).map Opportunity.core := by
  unfold detectCore
  refine foldl_rel
    (fun a b => a.map Opportunity.core = b.map Opportunity.core) _ _ ?_
    basePairs [] [] rfl
  intro a b base hab
  dsimp only
  refine foldl_rel
    (fun a b => a.map Opportunity.core = b.map Opportunity.core) _ _ ?_
    _ a b hab
  intro a1 b1 e1 hab1
  refine foldl_rel
    (fun a b => a.map Opportunity.core = b.map Opportunity.core) _ _ ?_
    _ a1 b1 hab1
  intro a2 b2 e2 hab2
  exact considerPair_core_eq recent t1 t2 base e1 e2 a2 b2 hab2

lemma cacheUpdate_idem (c : List (String × PriceData)) (s : String)
    (d : PriceData) :
    cacheUpdate (cacheUpdate c s d) s d = cacheUpdate c s d := by
  induction c with
  | nil => simp [cacheUpdate]
  | cons e rest ih =>
      obtain ⟨k, v⟩ := e
      by_cases hk : k = s
      · simp [cacheUpdate, hk]
      · simp [cacheUpdate, hk, ih]

lemma countP_eq_zero_of_not_mem_keys (rest : List (String × PriceData))
    (s : String) (hnot : s ∉ rest.map Prod.fst) :
    rest.countP (fun e => e.1 = s) = 0 := by
  induction rest with
  | nil => simp
  | cons e tail ih =>
      simp only [List.map_cons, List.mem_cons, not_or] at hnot
      have h1 : ¬ e.1 = s := fun h => hnot.1 (h ▸ rfl)
      rw [List.countP_cons]
      simp [h1, ih hnot.2]

lemma cacheUpdate_countP (c : List (String × PriceData)) (s : String)
    (d : PriceData) (hnodup : (c.map Prod.fst).Nodup) :
    (cacheUpdate c s d).countP (fun e => e.1 = s) = 1 := by
  induction c with
  | nil => simp [cacheUpdate]
  | cons e rest ih =>
      obtain ⟨k, v⟩ := e
      simp only [List.map_cons, List.nodup_cons] at hnodup
      by_cases hk : k = s
      · subst hk
        rw [show cacheUpdate ((k, v) :: rest) k d = (k, d) :: rest from by
          simp [cacheUpdate]]
        rw [List.countP_cons]
        simp [countP_eq_zero_of_not_mem_keys rest k hnodup.1]
      · rw [show cacheUpdate ((k, v) :: rest) s d =
            (k, v) :: cacheUpdate rest s d from by simp [cacheUpdate, hk]]
        rw [List.countP_cons]
        simp [hk, ih hnodup.2]

end ArbitrageX

/-- C9: writing the same quote for the same symbol twice is idempotent;
a cache whose keys are unique keeps exactly one entry for the updated
symbol; and the detection loops over an unchanged snapshot yield the same
opportunities in every field except the cycle timestamp — in particular
the same routes, rates, profits and volumes — for any two cycle
instants. -/
theorem ArbitrageX.cache_idempotent_detection_deterministic :
    (∀ (c : List (String × ArbitrageX.PriceData)) (s : String)
        (d : ArbitrageX.PriceData),
        ArbitrageX.cacheUpdate (ArbitrageX.cacheUpdate c s d) s d =
          ArbitrageX.cacheUpdate c s d)
    ∧ (∀ (c : List (String × ArbitrageX.PriceData)) (s : String)
        (d : ArbitrageX.PriceData), (c.map Prod.fst).Nodup →
        (ArbitrageX.cacheUpdate c s d).countP (fun e => e.1 = s) = 1)
    ∧ (∀ (recent : List (String × ArbitrageX.PriceData)) (t1 t2 : ℚ),
        (ArbitrageX.detectCore recent t1).map ArbitrageX.Opportunity.core =
          (ArbitrageX.detectCore recent t2).map
            ArbitrageX.Opportunity.core) :=
  ⟨ArbitrageX.cacheUpdate_idem, ArbitrageX.cacheUpdate_countP,
    ArbitrageX.detectCore_core_eq⟩

/-- Witness for C9: updating a one-entry cache with a fresh quote for the
same symbol leaves exactly one entry for that symbol. -/
theorem ArbitrageX.cache_idempotent_detection_deterministic_witness :
    (ArbitrageX.cacheUpdate
        [("BTCUSDT", (⟨1, 1, none, none, none, 0, 0⟩ :
            ArbitrageX.PriceData))]
        "BTCUSDT" ⟨2, 3, none, none, none, 1, 0⟩).countP
      (fun e => e.1 = "BTCUSDT") = 1 :=
  ArbitrageX.cache_idempotent_detection_deterministic.2.1
    [("BTCUSDT", ⟨1, 1, none, none, none, 0, 0⟩)] "BTCUSDT"
    ⟨2, 3, none, none, none, 1, 0⟩ (by simp)

namespace ArbitrageX

/-! ## Trade executor (`core/trading_core.py`) -/

/-- Lot-size filter data returned by `TradingCore.get_lot_size`. -/
structure LotInfo where
  minQty : ℚ
  maxQty : ℚ
  stepSize : ℚ
  deriving DecidableEq, Repr

/-- The configuration fields `TradingCore.__init__` reads from
`TRADING_CONFIG`, plus the operating mode. -/
structure TradingConfig where
  minProfit : ℚ
  tradeAmount : ℚ
  maxSlippage : ℚ
  feeRate : ℚ
  stopLossPct : ℚ
  takeProfitPct : ℚ
  testMode : Bool
  deriving DecidableEq, Repr

/-- The exchange as the executor observes it: the result of the `n`-th
`get_balance` call, the result of the `n`-th `create_order` call
(`true` = accepted), and the lot filter of each symbol. -/
structure ExecEnv where
  balance : ℕ → ℚ
  orderOk : ℕ → Bool
  lot : String → LotInfo

/-- `TradingCore.normalize_quantity`: quantize to the step size with
banker's rounding, then clamp into `[min_qty, max_qty]`. -/
def normalizeQuantity (lot : LotInfo) (quantity : ℚ) : ℚ :=
  let normalized := if lot.stepSize ≠ 0 then
      (roundHalfEven (quantity / lot.stepSize) : ℚ) * lot.stepSize
    else quantity
  max (min normalized lot.maxQty) lot.minQty

/-- The opportunity dictionary keys `execute_arbitrage` and
`validate_opportunity` read. -/
structure ExecOpportunity where
  aStepFrom : String
  aStepTo : String
  bStepFrom : String
  bStepTo : String
  cStepFrom : String
  cStepTo : String
  aRate : ℚ
  bRate : ℚ
  cRate : ℚ
  rate : ℚ
  aVolume : ℚ
  bVolume : ℚ
  cVolume : ℚ
  deriving DecidableEq, Repr

/-- `TradingCore.validate_opportunity`: minimum net profit after three
fees, balance of the start currency (the first `get_balance` call,
index 0), and the three per-leg volumes. -/
def validateOpportunity (cfg : TradingConfig) (env : ExecEnv)
    (opp : ExecOpportunity) : Bool :=
  let profit := (opp.rate - 1) * 100
  let netProfit := profit - cfg.feeRate * 3 * 100
  if netProfit < cfg.minProfit then false
  else if env.balance 0 < cfg.tradeAmount then false
  else if opp.aVolume < cfg.tradeAmount then false
  else if opp.bVolume < cfg.tradeAmount then false
  else if opp.cVolume < cfg.tradeAmount then false
  else true

/-- The terminal and transient trade statuses `execute_arbitrage` writes
into `trade['status']`. -/
inductive TradeStatus where
  | started
  | completed
  | failed
  | stopped
  deriving DecidableEq, Repr

/-- One entry of `trade['steps']`. -/
structure TradeStep where
  step : ℕ
  symbol : String
  quantity : ℚ
  price : ℚ
  resultAmount : ℚ
  deriving DecidableEq, Repr

/-- The `trade` dictionary (bookkeeping lists `active_trades` /
`completed_trades` and the free-form error text are not modelled). -/
structure Trade where
  status : TradeStatus
  steps : List TradeStep
  initialBalance : ℚ
  stopLoss : ℚ
  takeProfit : ℚ
  finalAmount : Option ℚ
  deriving DecidableEq, Repr

/-- The loop `for i, (from_coin, to_coin, rate) in enumerate(steps, 1)`
of `execute_arbitrage`.  Arguments: remaining legs, step number `i`,
index of the next `get_balance` call, index of the next `create_order`
call, `current_amount`, the trade record, and the orders sent so far.
Per leg: balance check, price with slippage, quantity normalization, the
single test-mode branch around order placement, the stop-loss check, and
the step record.  Returns the method's boolean result, the trade, and
every order sent to the exchange. -/
def runLegs (cfg : TradingConfig) (env : ExecEnv) :
    List (String × String × ℚ) → ℕ → ℕ → ℕ → ℚ → Trade →
      List (String × ℚ) → Bool × Trade × List (String × ℚ)
  | [], _, _, _, amt, trade, orders =>
      (true,
        { trade with
            status := TradeStatus.completed,
            finalAmount := some amt },
        orders)
  | leg :: rest, i, k, j, amt, trade, orders =>
      let symbol := leg.1 ++ leg.2.1
      let rate := leg.2.2
      if env.balance k < amt then
        (false, { trade with status := TradeStatus.failed }, orders)
      else
        let price := rate * (1 + cfg.maxSlippage)
        let quantity := normalizeQuantity (env.lot symbol) amt
        let success := if cfg.testMode then true else env.orderOk j
        let orders1 := if cfg.testMode then orders
          else orders ++ [(symbol, quantity)]
        let j1 := if cfg.testMode then j else j + 1
        if success then
          if env.balance (k + 1) < trade.stopLoss then
            (false, { trade with status := TradeStatus.stopped }, orders1)
          else
            let amt1 := quantity * rate * (1 - cfg.feeRate)
            let trade1 :=
              { trade with
                  steps := trade.steps ++ [⟨i, symbol, quantity, price, amt1⟩] }
            runLegs cfg env rest (i + 1) (k + 2) j1 amt1 trade1 orders1
        else
          (false, { trade with status := TradeStatus.failed }, orders1)

/-- `TradingCore.execute_arbitrage`: validation, initial balance
(`get_balance` call 1), stop-loss/take-profit floors, then the three
legs starting from `current_amount = trade_amount`. -/
def executeArbitrage (cfg : TradingConfig) (env : ExecEnv)
    (opp : ExecOpportunity) : Bool × Option Trade × List (String × ℚ) :=
  if validateOpportunity cfg env opp then
    let initialBalance := env.balance 1
    let stopLoss := initialBalance * (1 - cfg.stopLossPct)
    let takeProfit := initialBalance * (1 + cfg.takeProfitPct)
    let trade0 : Trade :=
      ⟨TradeStatus.started, [], initialBalance, stopLoss, takeProfit, none⟩
    let legs := [(opp.aStepFrom, opp.aStepTo, opp.aRate),
      (opp.bStepFrom, opp.bStepTo, opp.bRate),
      (opp.cStepFrom, opp.cStepTo, opp.cRate)]
    let r := runLegs cfg env legs 1 2 0 cfg.tradeAmount trade0 []
    (r.1, some r.2.1, r.2.2)
  else
    (false, none, [])

end ArbitrageX

/-- C3: when validation passes, leg 1 executes cleanly (balance
sufficient, order accepted, stop-loss untouched) and the exchange rejects
the leg-2 order, the trade's final status is `failed`, its steps list
holds exactly the one completed first leg, and the orders sent to the
exchange are exactly the leg-1 order and the rejected leg-2 order — no
leg-3 order and no reversing order for the executed first leg. -/
theorem ArbitrageX.executor_leg2_rejection (cfg : ArbitrageX.TradingConfig)
    (env : ArbitrageX.ExecEnv) (opp : ArbitrageX.ExecOpportunity)
    (hmode : cfg.testMode = false)
    (hval : ArbitrageX.validateOpportunity cfg env opp = true)
    (hbal1 : ¬ env.balance 2 < cfg.tradeAmount)
    (hord1 : env.orderOk 0 = true)
    (hstop1 : ¬ env.balance 3 < env.balance 1 * (1 - cfg.stopLossPct))
    (hbal2 : ¬ env.balance 4 <
      ArbitrageX.normalizeQuantity (env.lot (opp.aStepFrom ++ opp.aStepTo))
          cfg.tradeAmount * opp.aRate * (1 - cfg.feeRate))
    (hord2 : env.orderOk 1 = false) :
    (ArbitrageX.executeArbitrage cfg env opp).1 = false
    ∧ (ArbitrageX.executeArbitrage cfg env opp).2.1.map
        ArbitrageX.Trade.status = some ArbitrageX.TradeStatus.failed
    ∧ (ArbitrageX.executeArbitrage cfg env opp).2.1.map
        (fun t => t.steps.length) = some 1
    ∧ (ArbitrageX.executeArbitrage cfg env opp).2.2 =
        [(opp.aStepFrom ++ opp.aStepTo,
          ArbitrageX.normalizeQuantity
            (env.lot (opp.aStepFrom ++ opp.aStepTo)) cfg.tradeAmount),
         (opp.bStepFrom ++ opp.bStepTo,
          ArbitrageX.normalizeQuantity
            (env.lot (opp.bStepFrom ++ opp.bStepTo))
            (ArbitrageX.normalizeQuantity
                (env.lot (opp.aStepFrom ++ opp.aStepTo)) cfg.tradeAmount *
              opp.aRate * (1 - cfg.feeRate)))] := by
  refine ⟨?_, ?_, ?_, ?_⟩ <;>
    simp only [ArbitrageX.executeArbitrage, hval, if_true,
      ArbitrageX.runLegs, hmode, hord1, hord2, Bool.false_eq_true,
      if_false, if_neg hbal1, if_neg hstop1, if_neg hbal2, if_true,
      List.append_nil, List.nil_append, Option.map_some, List.length_append,
      List.length_cons, List.length_nil] <;>
    rfl

namespace ArbitrageX

/-- A concrete executor configuration for the C3 witness: live mode, unit
trade amount, no fees or slippage, stop-loss floor at the full balance
times one. -/
def witnessCfg : TradingConfig := ⟨0, 1, 0, 0, 0, 0, false⟩

/-- A concrete environment for the C3 witness: constant balance 100, the
first order accepted and every later order rejected, unconstrained lot
filters. -/
def witnessEnv : ExecEnv :=
  ⟨fun _ => 100, fun n => n = 0, fun _ => ⟨0, 1000000, 0⟩⟩

/-- A concrete validated opportunity for the C3 witness. -/
def witnessOpp : ExecOpportunity :=
  ⟨"USDT", "BTC", "BTC", "ETH", "ETH", "USDT", 1, 1, 1, 2, 1, 1, 1⟩

end ArbitrageX

/-- Witness for C3 at a concrete configuration, environment and
opportunity: the first order is accepted, the second rejected. -/
theorem ArbitrageX.executor_leg2_rejection_witness :
    (ArbitrageX.executeArbitrage ArbitrageX.witnessCfg ArbitrageX.witnessEnv
        ArbitrageX.witnessOpp).1 = false
    ∧ (ArbitrageX.executeArbitrage ArbitrageX.witnessCfg
        ArbitrageX.witnessEnv ArbitrageX.witnessOpp).2.1.map
          ArbitrageX.Trade.status = some ArbitrageX.TradeStatus.failed
    ∧ (ArbitrageX.executeArbitrage ArbitrageX.witnessCfg
        ArbitrageX.witnessEnv ArbitrageX.witnessOpp).2.1.map
          (fun t => t.steps.length) = some 1
    ∧ (ArbitrageX.executeArbitrage ArbitrageX.witnessCfg
        ArbitrageX.witnessEnv ArbitrageX.witnessOpp).2.2 =
        [(ArbitrageX.witnessOpp.aStepFrom ++ ArbitrageX.witnessOpp.aStepTo,
          ArbitrageX.normalizeQuantity
            (ArbitrageX.witnessEnv.lot (ArbitrageX.witnessOpp.aStepFrom ++
              ArbitrageX.witnessOpp.aStepTo))
            ArbitrageX.witnessCfg.tradeAmount),
         (ArbitrageX.witnessOpp.bStepFrom ++ ArbitrageX.witnessOpp.bStepTo,
          ArbitrageX.normalizeQuantity
            (ArbitrageX.witnessEnv.lot (ArbitrageX.witnessOpp.bStepFrom ++
              ArbitrageX.witnessOpp.bStepTo))
            (ArbitrageX.normalizeQuantity
                (ArbitrageX.witnessEnv.lot
                  (ArbitrageX.witnessOpp.aStepFrom ++
                    ArbitrageX.witnessOpp.aStepTo))
                ArbitrageX.witnessCfg.tradeAmount *
              ArbitrageX.witnessOpp.aRate *
              (1 - ArbitrageX.witnessCfg.feeRate)))] :=
  ArbitrageX.executor_leg2_rejection ArbitrageX.witnessCfg
    ArbitrageX.witnessEnv ArbitrageX.witnessOpp rfl
    (by norm_num [ArbitrageX.validateOpportunity, ArbitrageX.witnessCfg,
      ArbitrageX.witnessEnv, ArbitrageX.witnessOpp])
    (by norm_num [ArbitrageX.witnessCfg, ArbitrageX.witnessEnv])
    (by norm_num [ArbitrageX.witnessEnv])
    (by norm_num [ArbitrageX.witnessCfg, ArbitrageX.witnessEnv])
    (by norm_num [ArbitrageX.witnessCfg, ArbitrageX.witnessEnv,
      ArbitrageX.witnessOpp, ArbitrageX.normalizeQuantity])
    (by norm_num [ArbitrageX.witnessEnv])

namespace ArbitrageX

lemma runLegs_test_eq_live (cfg : TradingConfig) (env : ExecEnv) :
    ∀ (legs : List (String × String × ℚ)) (i k j jl : ℕ) (amt : ℚ)
      (trade : Trade) (orders ordersl : List (String × ℚ)),
      (runLegs { cfg with testMode := true } env legs i k j amt trade
          orders).1 =
        (runLegs { cfg with testMode := false }
          { env with orderOk := fun _ => true } legs i k jl amt trade
          ordersl).1
      ∧ (runLegs { cfg with testMode := true } env legs i k j amt trade
          orders).2.1 =
        (runLegs { cfg with testMode := false }
          { env with orderOk := fun _ => true } legs i k jl amt trade
          ordersl).2.1
      ∧ (runLegs { cfg with testMode := true } env legs i k j amt trade
          orders).2.2 = orders := by
  intro legs
  induction legs with
  | nil => intro i k j jl amt trade orders ordersl; simp [runLegs]
  | cons leg rest ih =>
      intro i k j jl amt trade orders ordersl
      simp only [runLegs]
      dsimp only
      by_cases hb : env.balance k < amt
      · simp [hb]
      · simp only [if_neg hb, if_true]
        by_cases hs : env.balance (k + 1) < trade.stopLoss
        · simp [hs]
        · simp only [if_neg hs]
          exact ih (i + 1) (k + 2) j (jl + 1) _ _ orders _

end ArbitrageX

/-- C8: test/simulation mode runs exactly the live-mode computation —
validation, per-leg balance checks, quantity normalization, slippage
pricing, stop-loss checks, step records and final status all agree with a
live run whose orders are all accepted — and differs only in the single
order-placement branch: the test run sends no order at all. -/
theorem ArbitrageX.executor_test_mode_single_branch
    (cfg : ArbitrageX.TradingConfig) (env : ArbitrageX.ExecEnv)
    (opp : ArbitrageX.ExecOpportunity) :
    (ArbitrageX.executeArbitrage { cfg with testMode := true } env opp).1 =
      (ArbitrageX.executeArbitrage { cfg with testMode := false }
        { env with orderOk := fun _ => true } opp).1
    ∧ (ArbitrageX.executeArbitrage { cfg with testMode := true } env
        opp).2.1 =
      (ArbitrageX.executeArbitrage { cfg with testMode := false }
        { env with orderOk := fun _ => true } opp).2.1
    ∧ (ArbitrageX.executeArbitrage { cfg with testMode := true } env
        opp).2.2 = [] := by
  open ArbitrageX in
  have hval : validateOpportunity { cfg with testMode := false }
      { env with orderOk := fun _ => true } opp =
        validateOpportunity { cfg with testMode := true } env opp := rfl
  by_cases hv :
      validateOpportunity { cfg with testMode := true } env opp = true
  · simp only [executeArbitrage, hval, hv, if_true]
    obtain ⟨h1, h2, h3⟩ :=
      runLegs_test_eq_live cfg env
        [(opp.aStepFrom, opp.aStepTo, opp.aRate),
          (opp.bStepFrom, opp.bStepTo, opp.bRate),
          (opp.cStepFrom, opp.cStepTo, opp.cRate)] 1 2 0 0 cfg.tradeAmount
        ⟨TradeStatus.started, [], env.balance 1,
          env.balance 1 * (1 - cfg.stopLossPct),
          env.balance 1 * (1 + cfg.takeProfitPct), none⟩ [] []
    exact ⟨h1, by rw [h2], h3⟩
  · simp [executeArbitrage, hval, if_neg hv]

namespace ArbitrageX

end ArbitrageX
